import Mathlib

/-!
Verification development for the chip-8 emulator sources.

Machine integers are embedded as `Nat` with explicit `% 256` (8-bit `Word`)
and `% 65536` (16-bit `Address`) wherever the Rust code relies on wrapping.
Bit masks and shifts on instruction words are translated to division and
remainder by powers of two: `(v & 0xF000) >> 12` becomes `v / 4096 % 16`,
`v & 0x0FFF` becomes `v % 4096`, `(v & 0x0F00) >> 8` becomes `v / 256 % 16`,
`v & 0x00FF` becomes `v % 256`, `(v & 0x00F0) >> 4` becomes `v / 16 % 16`,
and `(v & 0x00F0) >> 8` becomes `v / 16 % 16 * 16 / 256` (the source's exact
expression: mask first, then shift by eight).

Fallible Rust code returning `Result<T, Error>` is embedded as `RRes T`,
which has a third alternative `panicked` for the source's `panic!` arms and
for `MemoryRange::new`'s panic on an inverted range, so that "never panics"
is a provable statement rather than a modelling assumption.
-/

/-- Embedding of `core::Error`: a message plus an optional chained cause. -/
inductive CErr where
  | mk (message : String) (cause : Option CErr)

/-- `Error::chain`: wrap an error as the cause of a new message. -/
def CErr.chain (e : CErr) (message : String) : CErr := .mk message (some e)

/-- Result type of fallible operations: `Ok`, `Err`, or a reached `panic!`. -/
inductive RRes (α : Type) where
  | ok (a : α)
  | err (e : CErr)
  | panicked

/-- Hexadecimal digit character, used by the `{:04X}` style format strings. -/
def hexDigit (n : Nat) : Char :=
  if n = 0 then '0' else if n = 1 then '1' else if n = 2 then '2'
  else if n = 3 then '3' else if n = 4 then '4' else if n = 5 then '5'
  else if n = 6 then '6' else if n = 7 then '7' else if n = 8 then '8'
  else if n = 9 then '9' else if n = 10 then 'A' else if n = 11 then 'B'
  else if n = 12 then 'C' else if n = 13 then 'D' else if n = 14 then 'E'
  else 'F'

/-- `{:04X}`: four-digit uppercase hexadecimal, as `Display for Address`. -/
def hex4 (n : Nat) : String :=
  String.mk [hexDigit (n / 4096 % 16), hexDigit (n / 256 % 16),
             hexDigit (n / 16 % 16), hexDigit (n % 16)]

/-- Operand of an arithmetic or conditional opcode (`opcodes.rs`). -/
inductive OpcodeParam where
  | Immediate (w : Nat)
  | Register (i : Nat)
deriving DecidableEq

/-- Skip condition (`opcodes.rs`). -/
inductive Condition where
  | Equal
  | NotEqual
deriving DecidableEq

/-- `Condition::evaluate`, generic over any type with decidable equality. -/
def Condition.evaluate {α : Type} [DecidableEq α] (c : Condition) (a b : α) : Bool :=
  match c with
  | .Equal => a = b
  | .NotEqual => a ≠ b

/-- Arithmetic operation selector of the `Assign` opcode (`opcodes.rs`). -/
inductive Operation where
  | None
  | Add
  | Sub
  | ReverseSub
  | Or
  | And
  | Xor
deriving DecidableEq

/-- `Operation::evaluate` on 8-bit values (arguments are `u8`, i.e. `< 256`):
the wrapped result together with the optional carry flag.  `Add` returns the
overflow bit; `Sub` and `ReverseSub` return the negated borrow bit, exactly
as the source's `Some(!carry)`. -/
def Operation.evaluate (op : Operation) (lhs rhs : Nat) : Nat × Option Bool :=
  match op with
  | .None => (rhs, none)
  | .Or => (rhs ||| lhs, none)
  | .And => (rhs &&& lhs, none)
  | .Xor => (rhs ^^^ lhs, none)
  | .Add => ((lhs + rhs) % 256, some (decide (256 ≤ lhs + rhs)))
  | .Sub => ((lhs + 256 - rhs) % 256, some (!(decide (lhs < rhs))))
  | .ReverseSub => ((rhs + 256 - lhs) % 256, some (!(decide (rhs < lhs))))

/-- The two hardware timers (`opcodes.rs`). -/
inductive TimerKind where
  | Delay
  | Sound
deriving DecidableEq

/-- Decoded instruction, mirroring `enum Opcode` in `opcodes.rs`. -/
inductive Opcode where
  | Assign (left_reg : Nat) (right : OpcodeParam) (op : Operation)
  | Shift (reg : Nat) (right : Bool)
  | Random (reg : Nat) (mask : Nat)
  | AssignAddress (a : Nat)
  | AddAddress (r : Nat)
  | GetCharacterAddress (r : Nat)
  | Return
  | Jump (a : Nat)
  | OffsetJump (a : Nat)
  | Call (a : Nat)
  | CallNative (a : Nat)
  | CondJump (left : OpcodeParam) (right : OpcodeParam) (cond : Condition)
  | ClearScreen
  | Draw (x : Nat) (y : Nat) (height : Nat)
  | BlockOnKey (r : Nat)
  | CondKeyJump (reg : Nat) (cond : Condition)
  | GetDelayTimer (r : Nat)
  | SetTimer (reg : Nat) (timer : TimerKind)
  | Nop
  | WriteBCD (r : Nat)
  | DumpValueRegisters (r : Nat)
  | LoadValueRegisters (r : Nat)
deriving DecidableEq

/-- The decoder's error values.  Each of the source's three `format!` strings
embeds the offending 16-bit word, so the word is kept as structured data. -/
inductive DecodeErr where
  | lastNibbleInvalid (word : Nat)
  | lastByteInvalid (word : Nat)
  | invalidOpcode (word : Nat)
deriving DecidableEq

/-- The offending instruction word carried by a decode error. -/
def DecodeErr.word : DecodeErr → Nat
  | .lastNibbleInvalid w => w
  | .lastByteInvalid w => w
  | .invalidOpcode w => w

/-- Render a decode error to the `core::Error` form used by the CPU. -/
def DecodeErr.toCErr : DecodeErr → CErr
  | .lastNibbleInvalid w => .mk ("Last nibble invalid in opcode " ++ hex4 w) none
  | .lastByteInvalid w => .mk ("Last byte invalid in opcode " ++ hex4 w) none
  | .invalidOpcode w => .mk ("Invalid opcode " ++ hex4 w) none

/-- Result of `Opcode::decode`, with the `panic!` arms kept explicit. -/
inductive DecodeResult where
  | ok (op : Opcode)
  | err (e : DecodeErr)
  | panicked
deriving DecidableEq

/-- Embedding of `Opcode::decode` (`opcodes.rs`).  Bit masks on the `u16`
word are written as division and remainder by powers of two (see the header
comment); in particular the register-register `CondJump` right operand is
`value / 16 % 16 * 16 / 256`, the source's `(value & 0x00F0) >> 8`. -/
def Opcode.decode (value : Nat) : DecodeResult :=
  if value = 0x0000 then .ok .Nop
  else if value = 0x00E0 then .ok .ClearScreen
  else if value = 0x00EE then .ok .Return
  else
    let first_nibble := value / 4096 % 16
    if first_nibble = 0x0 ∨ first_nibble = 0x1 ∨ first_nibble = 0x2 ∨
       first_nibble = 0xA ∨ first_nibble = 0xB then
      let addr := value % 4096
      if first_nibble = 0x0 then .ok (.CallNative addr)
      else if first_nibble = 0x1 then .ok (.Jump addr)
      else if first_nibble = 0x2 then .ok (.Call addr)
      else if first_nibble = 0xA then .ok (.AssignAddress addr)
      else if first_nibble = 0xB then .ok (.OffsetJump addr)
      else .panicked
    else if first_nibble = 0x3 ∨ first_nibble = 0x4 ∨ first_nibble = 0x5 ∨
            first_nibble = 0x9 then
      let reg := value / 256 % 16
      .ok (.CondJump (.Register reg)
        (if first_nibble = 3 ∨ first_nibble = 4 then .Immediate (value % 256)
         else .Register (value / 16 % 16 * 16 / 256))
        (if first_nibble = 3 ∨ first_nibble = 5 then .Equal else .NotEqual))
    else if first_nibble = 0x6 ∨ first_nibble = 0x7 then
      let reg := value / 256 % 16
      let immediate := value % 256
      if first_nibble = 6 then .ok (.Assign reg (.Immediate immediate) .None)
      else if first_nibble = 7 then .ok (.Assign reg (.Immediate immediate) .Add)
      else .panicked
    else if first_nibble = 0x8 then
      let last_nibble := value % 16
      let reg1 := value / 256 % 16
      let reg2 := value / 16 % 16
      if last_nibble = 0x6 ∨ last_nibble = 0xE then
        .ok (.Shift reg1 (last_nibble = 0x6))
      else if last_nibble > 7 then .err (.lastNibbleInvalid value)
      else if last_nibble = 0 then .ok (.Assign reg1 (.Register reg2) .None)
      else if last_nibble = 1 then .ok (.Assign reg1 (.Register reg2) .Or)
      else if last_nibble = 2 then .ok (.Assign reg1 (.Register reg2) .And)
      else if last_nibble = 3 then .ok (.Assign reg1 (.Register reg2) .Xor)
      else if last_nibble = 4 then .ok (.Assign reg1 (.Register reg2) .Add)
      else if last_nibble = 5 then .ok (.Assign reg1 (.Register reg2) .Sub)
      else if last_nibble = 7 then .ok (.Assign reg1 (.Register reg2) .ReverseSub)
      else .panicked
    else if first_nibble = 0xC then
      .ok (.Random (value / 256 % 16) (value % 256))
    else if first_nibble = 0xD then
      .ok (.Draw (value / 256 % 16) (value / 16 % 16) (value % 16))
    else if first_nibble = 0xE then
      let reg := value / 256 % 16
      let last_byte := value % 256
      if last_byte ≠ 0x9E ∧ last_byte ≠ 0xA1 then
        .err (.lastByteInvalid value)
      else if last_byte = 0x9E then .ok (.CondKeyJump reg .Equal)
      else if last_byte = 0xA1 then .ok (.CondKeyJump reg .NotEqual)
      else .panicked
    else if first_nibble = 0xF then
      let reg := value / 256 % 16
      let last_byte := value % 256
      if last_byte = 0x07 then .ok (.GetDelayTimer reg)
      else if last_byte = 0x0A then .ok (.BlockOnKey reg)
      else if last_byte = 0x15 then .ok (.SetTimer reg .Delay)
      else if last_byte = 0x18 then .ok (.SetTimer reg .Sound)
      else if last_byte = 0x1E then .ok (.AddAddress reg)
      else if last_byte = 0x29 then .ok (.GetCharacterAddress reg)
      else if last_byte = 0x33 then .ok (.WriteBCD reg)
      else if last_byte = 0x55 then .ok (.DumpValueRegisters reg)
      else if last_byte = 0x65 then .ok (.LoadValueRegisters reg)
      else .err (.lastByteInvalid value)
    else .err (.invalidOpcode value)

/-- The instruction set recognized by the dispatch table of the decoder, as
an independent enumeration of the accepted word shapes: every word whose
high nibble is not 8, E or F is accepted; high nibble 8 requires a low
nibble in 0-7, 6 or E; high nibble E requires low byte 9E or A1; high
nibble F requires one of the nine listed low bytes. -/
def recognizedTable (value : Nat) : Bool :=
  let hi := value / 4096 % 16
  let lo4 := value % 16
  let lo8 := value % 256
  if hi = 8 then decide (lo4 ≤ 7 ∨ lo4 = 0xE)
  else if hi = 0xE then decide (lo8 = 0x9E ∨ lo8 = 0xA1)
  else if hi = 0xF then
    decide (lo8 = 0x07 ∨ lo8 = 0x0A ∨ lo8 = 0x15 ∨ lo8 = 0x18 ∨
            lo8 = 0x1E ∨ lo8 = 0x29 ∨ lo8 = 0x33 ∨ lo8 = 0x55 ∨ lo8 = 0x65)
  else true

/-- The delay/sound timer state (`timers.rs`).  Durations are nanosecond
counts; the `last_tick` instant is replaced by passing the elapsed
wall-clock time into `tick` explicitly. -/
structure Timers where
  delay_timer : Nat
  sound_timer : Nat
  delay_accumulator : Nat
deriving DecidableEq

/-- `Duration::from_nanos(1000000000 / 60)`: one sixtieth of a second. -/
def DELAY_FREQUENCY : Nat := 1000000000 / 60

/-- `Timers::try_decrement_delay`: decrement the delay counter, floored at
zero. -/
def decDelay (delay : Nat) : Nat := if delay > 0 then delay - 1 else delay

/-- `Timers::tick` with `elapsed` nanoseconds since the previous tick.  The
source's `while delay_accumulator >= DELAY_FREQUENCY` loop runs exactly
`acc / DELAY_FREQUENCY` times, decrementing the delay counter each time and
leaving `acc % DELAY_FREQUENCY` in the accumulator; the loop is lowered to
that closed form, iterating `try_decrement_delay`.  Note that the loop body
touches only `delay_timer`: `sound_timer` is carried over unchanged. -/
def Timers.tick (t : Timers) (elapsed : Nat) : Timers :=
  let acc := t.delay_accumulator + elapsed
  let periods := acc / DELAY_FREQUENCY
  { delay_timer := decDelay^[periods] t.delay_timer,
    sound_timer := t.sound_timer,
    delay_accumulator := acc % DELAY_FREQUENCY }

/-- `MemoryRange`: an inclusive `[min, max]` interval of 16-bit addresses. -/
structure MemoryRange where
  min : Nat
  max : Nat
deriving DecidableEq

/-- `MemoryRange::new`: panics (`none`) when `min > max`. -/
def MemoryRange.new (min max : Nat) : Option MemoryRange :=
  if min > max then none else some ⟨min, max⟩

/-- `MemoryRange::new_len`: `new(start, start + len)` with wrapping 16-bit
address addition — note the resulting inclusive range holds `len + 1`
addresses. -/
def MemoryRange.new_len (start len : Nat) : Option MemoryRange :=
  MemoryRange.new start ((start + len) % 65536)

/-- `MemoryRange::contains`. -/
def MemoryRange.contains (r : MemoryRange) (addr : Nat) : Bool :=
  decide (r.min ≤ addr) && decide (addr ≤ r.max)

/-- `MemoryRange::overlaps`. -/
def MemoryRange.overlaps (r other : MemoryRange) : Bool :=
  decide (r.min ≤ other.max) && decide (other.min ≤ r.max)

/-- `MemoryRange::len` (`max - min`; one less than the address count). -/
def MemoryRange.len (r : MemoryRange) : Nat := r.max - r.min

/-- The addresses yielded by `MemoryRangeIterator`, from `min` to `max`
inclusive (the source iterator is only used with `min ≤ max < 0xFFFF`). -/
def MemoryRange.toList (r : MemoryRange) : List Nat :=
  (List.range (r.max + 1 - r.min)).map (fun i => r.min + i)

/-- A bank's backing store.  The program registers `ByteArrayMemory` banks
either directly (read-write), through `ReadMemoryWrapper` (writes fail) or
through `WriteMemoryWrapper` (reads fail); the boxed trait object is closed
over those three cases. -/
inductive BankStore where
  | byteArray (data : List Nat)
  | readOnly (data : List Nat)
  | writeOnly (data : List Nat)

/-- `ByteArrayMemory`'s bounds error (the source's message is itself
truncated mid-sentence: it ends at "with length"). -/
def byteArrayBoundsErr (addr : Nat) : CErr :=
  .mk ("Address " ++ hex4 addr ++
       " is outside the range of the byte array with length") none

/-- Reading one bank-local address from a store. -/
def BankStore.get (s : BankStore) (addr : Nat) : RRes Nat :=
  match s with
  | .byteArray data =>
    match data.get? addr with
    | some w => .ok w
    | none => .err (byteArrayBoundsErr addr)
  | .readOnly data =>
    match data.get? addr with
    | some w => .ok w
    | none => .err (byteArrayBoundsErr addr)
  | .writeOnly _ => .err (.mk "Read not supported for this memory" none)

/-- Writing one bank-local address of a store. -/
def BankStore.set (s : BankStore) (addr w : Nat) : RRes BankStore :=
  match s with
  | .byteArray data =>
    if addr < data.length then .ok (.byteArray (data.set addr w))
    else .err (byteArrayBoundsErr addr)
  | .readOnly _ => .err (.mk "Write not supported for this memory" none)
  | .writeOnly data =>
    if addr < data.length then .ok (.writeOnly (data.set addr w))
    else .err (byteArrayBoundsErr addr)

/-- `MemoryMapperBank`: a name, a range, and the delegate store. -/
structure Bank where
  name : String
  range : MemoryRange
  delegate : BankStore

/-- `Display for MemoryMapperBank`: `"{name} ({min}-{max})"`. -/
def Bank.display (b : Bank) : String :=
  b.name ++ " (" ++ hex4 b.range.min ++ "-" ++ hex4 b.range.max ++ ")"

/-- `MemoryMapperBank::offset`: translate a global address to a bank-local
one (only called when `range.contains addr`, so plain subtraction agrees
with the wrapping source subtraction). -/
def Bank.offset (b : Bank) (addr : Nat) : Nat := addr - b.range.min

/-- `MemoryMapper`: the ordered list of registered banks. -/
structure MemoryMapper where
  banks : List Bank

/-- `MemoryMapper::new`. -/
def MemoryMapper.new : MemoryMapper := ⟨[]⟩

/-- The source's `for overlapping_bank in overlapping { write!(error, ...) }`
loop body: concatenate the display of every overlapping bank. -/
def displayAll : List Bank → String
  | [] => ""
  | b :: rest => b.display ++ displayAll rest

/-- The full `MapError` produced by `MemoryMapper::add` on a conflict. -/
def overlapErrOf (overlapping : List Bank) : CErr :=
  .mk ("Bank would overlap with " ++ displayAll overlapping) none

/-- `MemoryMapper::add`: reject when some registered bank's range overlaps
the new one, naming all overlapping banks in the error, otherwise push the
new bank.  Returned as (optional error, resulting mapper) to mirror the
`&mut self` method: on rejection the mapper is returned unchanged. -/
def MemoryMapper.add (m : MemoryMapper) (bank : BankStore) (range : MemoryRange)
    (name : String) : Option CErr × MemoryMapper :=
  let overlapping := m.banks.filter (fun x => x.range.overlaps range)
  if overlapping.isEmpty then
    (none, ⟨m.banks ++ [⟨name, range, bank⟩]⟩)
  else
    (some (overlapErrOf overlapping), m)

/-- The "no bank covers this address" error of `MemoryMapper::get`/`set`. -/
def unmappedErr (addr : Nat) : CErr :=
  .mk ("No bank mapped to address " ++ hex4 addr) none

/-- `<MemoryMapper as ReadMemory>::get`: find the first bank containing the
address, delegate with the bank-local offset, and chain context onto a
delegate failure. -/
def MemoryMapper.get (m : MemoryMapper) (addr : Nat) : RRes Nat :=
  match m.banks.find? (fun x => x.range.contains addr) with
  | none => .err (unmappedErr addr)
  | some bank =>
    match bank.delegate.get (bank.offset addr) with
    | .ok w => .ok w
    | .err e => .err (e.chain ("Unable to read address " ++ hex4 addr ++
        " from bank " ++ bank.display))
    | .panicked => .panicked

/-- The bank-list update of `<MemoryMapper as WriteMemory>::set`: write
through the first bank containing the address. -/
def setBanks : List Bank → Nat → Nat → RRes (List Bank)
  | [], addr, _ => .err (unmappedErr addr)
  | bank :: rest, addr, w =>
    if bank.range.contains addr then
      match bank.delegate.set (bank.offset addr) w with
      | .ok d => .ok ({ bank with delegate := d } :: rest)
      | .err e => .err (e.chain ("Unable to write to address " ++ hex4 addr ++
          " in bank " ++ bank.display))
      | .panicked => .panicked
    else
      match setBanks rest addr w with
      | .ok rest2 => .ok (bank :: rest2)
      | .err e => .err e
      | .panicked => .panicked

/-- `<MemoryMapper as WriteMemory>::set`. -/
def MemoryMapper.set (m : MemoryMapper) (addr w : Nat) : RRes MemoryMapper :=
  match setBanks m.banks addr w with
  | .ok banks => .ok ⟨banks⟩
  | .err e => .err e
  | .panicked => .panicked

/-- The `for addr in range { result.push(self.get(addr)?) }` loop of
`ReadMemory::get_range`, over the iterator's address list. -/
def getList (m : MemoryMapper) : List Nat → RRes (List Nat)
  | [] => .ok []
  | addr :: rest =>
    match m.get addr with
    | .err e => .err e
    | .panicked => .panicked
    | .ok w =>
      match getList m rest with
      | .ok ws => .ok (w :: ws)
      | .err e => .err e
      | .panicked => .panicked

/-- `ReadMemory::get_range` for the memory mapper. -/
def MemoryMapper.get_range (m : MemoryMapper) (r : MemoryRange) : RRes (List Nat) :=
  getList m r.toList

/-- The mappers constructible through the public interface: the empty
mapper, extended by any sequence of `add` calls (`add_read`/`add_write`
also funnel into `add`; a rejected `add` returns the mapper unchanged,
which this constructor covers as well). -/
inductive ReachableMapper : MemoryMapper → Prop
  | new : ReachableMapper MemoryMapper.new
  | add (m : MemoryMapper) (bank : BankStore) (range : MemoryRange)
      (name : String) (hm : ReachableMapper m) :
      ReachableMapper (m.add bank range name).2

/-- A notification delivered to a video listener: `on_change` with the raw
(unwrapped) coordinates and the new pixel value, or `on_clear`. -/
inductive VideoEvent where
  | change (x y : Nat) (value : Bool)
  | cleared
deriving DecidableEq

/-- `VideoMemory` (`display.rs`): 64x32 pixels packed 8 per byte into a
256-byte buffer (`data i` is byte `i`, meaningful for `i < 256`), plus the
listener registry.  The listeners live in a `HashMap<u8, Box<dyn
VideoListener>>`; the map is modelled by the list of present ids in
registration (insertion) order together with the next id counter.  The
boxed listener objects themselves perform external I/O and are modelled
by their ids; each mutating operation takes the map's iteration order
(`iter`, an arbitrary permutation of the present ids, since a `HashMap`'s
order is unspecified) and the listeners' outcomes (`cb`, `none` meaning
the callback returned `Ok`), and returns the trace of callback invocations
it performed. -/
structure VideoMemory where
  data : Nat → Nat
  listeners : List Nat
  next_listener_id : Nat

/-- `VideoMemory::BIT_WIDTH`. -/
def BIT_WIDTH : Nat := 64

/-- `VideoMemory::BIT_HEIGHT`. -/
def BIT_HEIGHT : Nat := 32

/-- `VideoMemory::VRAM_LEN`. -/
def VRAM_LEN : Nat := BIT_WIDTH * BIT_HEIGHT / 8

/-- `VideoMemory::new`. -/
def VideoMemory.new : VideoMemory := ⟨fun _ => 0, [], 0⟩

/-- `VideoMemory::get_index_offset`: wrap the coordinates modulo the frame
size, then split the bit index into byte index and bit offset.  The source
returns `Result` but always `Ok`. -/
def VideoMemory.get_index_offset (x y : Nat) : RRes (Nat × Nat) :=
  let xw := x % BIT_WIDTH
  let yw := y % BIT_HEIGHT
  let bit_index := xw + yw * BIT_WIDTH
  .ok (bit_index / 8, bit_index % 8)

/-- `VideoMemory::get`: read one pixel. -/
def VideoMemory.get (vm : VideoMemory) (x y : Nat) : RRes Bool :=
  match VideoMemory.get_index_offset x y with
  | .ok (byte_index, bit_offset) =>
    .ok (decide ((vm.data byte_index >>> bit_offset) &&& 1 = 1))
  | .err e => .err e
  | .panicked => .panicked

/-- The notification loop `for listener in self.listeners.values_mut()`
with `?` propagation: invoke the callbacks in iteration order, stopping at
the first failure; returns the invocation trace and the first failure. -/
def notifyAll (iter : List Nat) (cb : Nat → Option CErr) (ev : VideoEvent) :
    List (Nat × VideoEvent) × Option CErr :=
  match iter with
  | [] => ([], none)
  | i :: rest =>
    match cb i with
    | some e => ([(i, ev)], some e)
    | none =>
      let (tr, r) := notifyAll rest cb ev
      ((i, ev) :: tr, r)

/-- The buffer-and-result part of `VideoMemory::flip`: XOR the pixel's bit
and read the new value back. -/
def flipData (data : Nat → Nat) (x y : Nat) : (Nat → Nat) × Bool :=
  match VideoMemory.get_index_offset x y with
  | .ok (byte_index, bit_offset) =>
    let d := fun j => if j = byte_index then data byte_index ^^^ (1 <<< bit_offset)
                      else data j
    (d, decide ((d byte_index >>> bit_offset) &&& 1 = 1))
  | _ => (data, false)

/-- `VideoMemory::flip`: flip one pixel, notify every listener with the raw
coordinates and the new value, and return the new value.  Returns (new
state, result, invocation trace). -/
def VideoMemory.flip (vm : VideoMemory) (iter : List Nat) (cb : Nat → Option CErr)
    (x y : Nat) : VideoMemory × RRes Bool × List (Nat × VideoEvent) :=
  let (d, bit) := flipData vm.data x y
  let (tr, fail) := notifyAll iter cb (.change x y bit)
  ({ vm with data := d },
   match fail with
   | some e => .err e
   | none => .ok bit,
   tr)

/-- The buffer-and-result part of `VideoMemory::set`: record the old bit,
then force the pixel's bit to `value`. -/
def setData (data : Nat → Nat) (x y : Nat) (value : Bool) : (Nat → Nat) × Bool :=
  match VideoMemory.get_index_offset x y with
  | .ok (byte_index, bit_offset) =>
    let old_bit := (data byte_index >>> bit_offset) &&& 1
    let d := fun j =>
      if j = byte_index then
        if value then data byte_index ||| (1 <<< bit_offset)
        else data byte_index &&& (VRAM_LEN * 16 - 1 - (1 <<< bit_offset))
      else data j
    (d, decide (old_bit = 1))
  | _ => (data, false)

/-- `VideoMemory::set`: write one pixel (the source's `&= !mask` on a `u8`
is the conjunction with `255 - mask`, i.e. `VRAM_LEN * 16 - 1 - mask`),
notify every listener, and return the old value. -/
def VideoMemory.set (vm : VideoMemory) (iter : List Nat) (cb : Nat → Option CErr)
    (x y : Nat) (value : Bool) : VideoMemory × RRes Bool × List (Nat × VideoEvent) :=
  let (d, old) := setData vm.data x y value
  let (tr, fail) := notifyAll iter cb (.change x y value)
  ({ vm with data := d },
   match fail with
   | some e => .err e
   | none => .ok old,
   tr)

/-- `VideoMemory::clear`: zero the whole buffer and notify `on_clear`. -/
def VideoMemory.clear (vm : VideoMemory) (iter : List Nat) (cb : Nat → Option CErr) :
    VideoMemory × RRes Unit × List (Nat × VideoEvent) :=
  let (tr, fail) := notifyAll iter cb .cleared
  ({ vm with data := fun _ => 0 },
   match fail with
   | some e => .err e
   | none => .ok (),
   tr)

/-- The three key states of `input/mod.rs`. -/
inductive KeyState where
  | Released
  | Pressed
  | Held
deriving DecidableEq

/-- `KEY_NUM`. -/
def KEY_NUM : Nat := 16

/-- `InputBuffer`: 16 key cells (`keys i` meaningful for `i < 16`). -/
structure InputBuffer where
  keys : Nat → KeyState

/-- `to_key_index`: bounds-check a key index. -/
def to_key_index (value : Nat) : RRes Nat :=
  if value ≥ KEY_NUM then .err (.mk "Key index out of bounds" none)
  else .ok value

/-- `InputBuffer::is_down`: `Pressed` or `Held`. -/
def InputBuffer.is_down (b : InputBuffer) (i : Nat) : RRes Bool :=
  match to_key_index i with
  | .ok index => .ok (decide (b.keys index ≠ .Released))
  | .err e => .err e
  | .panicked => .panicked

/-- `InputBuffer::tick`: demote every `Pressed` cell to `Released`. -/
def InputBuffer.tick (b : InputBuffer) : InputBuffer :=
  ⟨fun i => match b.keys i with
    | .Held => .Held
    | _ => .Released⟩

/-- `Registers` (`registers.rs`): sixteen 8-bit value registers (`values i`
meaningful for `i < 16`), the address register and the program counter. -/
structure Registers where
  values : Nat → Nat
  program_counter : Nat
  address : Nat

/-- `Registers::new`: zero registers, program counter at 0x0200. -/
def Registers.new : Registers := ⟨fun _ => 0, 0x0200, 0⟩

/-- Write one value register. -/
def setVal (r : Registers) (i w : Nat) : Registers :=
  { r with values := fun j => if j = i then w else r.values j }

/-- The whole machine owned by `CPU` (`cpu.rs`).  The host-input pump
(`native.tick`) and the attached terminal listener are external
collaborators: the engine-level model runs the video mutations with the
listener callbacks succeeding (their only effect is terminal I/O), using
`drawRowsGo`/`clearData`-style buffer updates below. -/
structure Chip8 where
  registers : Registers
  timers : Timers
  memory : MemoryMapper
  stack : List Nat
  vram : VideoMemory
  input : InputBuffer

/-- `CPU::get_value`. -/
def Chip8.get_value (c : Chip8) (p : OpcodeParam) : Nat :=
  match p with
  | .Immediate w => w
  | .Register i => c.registers.values i

/-- The inner `for dx in 0..8` loop of the `Draw` branch of
`CPU::interpret`, at screen row `y`, for the bit positions `dxs` still to
process: skip unset sprite bits, flip the pixel for set ones, and remember
whether any flip turned a pixel off (`!new_pixel`), which the source
records by writing 1 into flag register 15. -/
def drawBits (data : Nat → Nat) (x y byte : Nat) : List Nat → (Nat → Nat) × Bool
  | [] => (data, false)
  | dx :: rest =>
    if (byte >>> (7 - dx)) &&& 1 = 1 then
      let (d, newPixel) := flipData data (x + dx) y
      let (d2, col) := drawBits d x y byte rest
      (d2, !newPixel || col)
    else drawBits data x y byte rest

/-- The outer `for dy in 0..height` loop of the `Draw` branch: draw each
remaining sprite row at successive screen rows starting at `ycur`
(`ycur = y + dy` for the dy-th row). -/
def drawRowsGo (data : Nat → Nat) (x ycur : Nat) : List Nat → (Nat → Nat) × Bool
  | [] => (data, false)
  | byte :: rest =>
    let (d, c1) := drawBits data x ycur byte (List.range 8)
    let (d2, c2) := drawRowsGo d x (ycur + 1) rest
    (d2, c1 || c2)

/-- Companion of `drawBits` that records each executed flip's returned new
pixel value in order instead of aggregating them. -/
def drawBitsTr (data : Nat → Nat) (x y byte : Nat) : List Nat → (Nat → Nat) × List Bool
  | [] => (data, [])
  | dx :: rest =>
    if (byte >>> (7 - dx)) &&& 1 = 1 then
      let (d, newPixel) := flipData data (x + dx) y
      let (d2, tr) := drawBitsTr d x y byte rest
      (d2, newPixel :: tr)
    else drawBitsTr data x y byte rest

/-- Companion of `drawRowsGo` collecting the flip-result trace of the whole
sprite draw. -/
def drawRowsTr (data : Nat → Nat) (x ycur : Nat) : List Nat → (Nat → Nat) × List Bool
  | [] => (data, [])
  | byte :: rest =>
    let (d, t1) := drawBitsTr data x ycur byte (List.range 8)
    let (d2, t2) := drawRowsTr d x (ycur + 1) rest
    (d2, t1 ++ t2)

/-- The `for i in 0..=end` loop of `DumpValueRegisters`. -/
def dumpGo (m : MemoryMapper) (values : Nat → Nat) (address : Nat) :
    List Nat → RRes MemoryMapper
  | [] => .ok m
  | i :: rest =>
    match m.set ((address + i) % 65536) (values i) with
    | .ok m2 => dumpGo m2 values address rest
    | .err e => .err e
    | .panicked => .panicked

/-- The `for i in 0..=end` loop of `LoadValueRegisters`. -/
def loadGo (m : MemoryMapper) (r : Registers) (address : Nat) :
    List Nat → RRes Registers
  | [] => .ok r
  | i :: rest =>
    match m.get ((address + i) % 65536) with
    | .ok w => loadGo m (setVal r i w) address rest
    | .err e => .err e
    | .panicked => .panicked

/-- 16-bit wrapping subtraction, for `Address - i`. -/
def sub16 (a b : Nat) : Nat := (a + 65536 - b % 65536) % 65536

/-- `CPU::interpret` (`cpu.rs`).  `rnd` is the byte drawn from the host
random number generator for the `Random` opcode.  Each branch returns the
mutated machine and the `increment_pc` flag; afterwards the program
counter is advanced by 2 (wrapping) unless the branch cleared the flag. -/
def Chip8.interpret (c : Chip8) (opcode : Opcode) (rnd : Nat) : RRes Chip8 :=
  let step : RRes (Chip8 × Bool) :=
    match opcode with
    | .Assign left_reg right op =>
      let (result, carry) := op.evaluate (c.registers.values left_reg)
        (c.get_value right)
      let r1 := setVal c.registers left_reg result
      let r2 :=
        match carry, right with
        | some cv, .Register _ => setVal r1 15 (if cv then 1 else 0)
        | _, _ => r1
      .ok ({ c with registers := r2 }, true)
    | .Shift reg true =>
      let value := c.registers.values reg
      let r2 := setVal (setVal c.registers 15 (value &&& 1)) reg (value >>> 1)
      .ok ({ c with registers := r2 }, true)
    | .Shift reg false =>
      let value := c.registers.values reg
      let r2 := setVal (setVal c.registers 15 ((value &&& 128) >>> 7)) reg
        ((value <<< 1) % 256)
      .ok ({ c with registers := r2 }, true)
    | .Random reg mask =>
      .ok ({ c with registers := setVal c.registers reg (rnd &&& mask) }, true)
    | .AssignAddress addr =>
      .ok ({ c with registers := { c.registers with address := addr } }, true)
    | .AddAddress reg =>
      let value := c.registers.values reg
      let r2 := { c.registers with address := (c.registers.address + value) % 65536 }
      .ok ({ c with registers := r2 }, true)
    | .GetCharacterAddress reg =>
      let value := c.registers.values reg
      let r2 := { c.registers with address := value * 5 % 256 }
      .ok ({ c with registers := r2 }, true)
    | .Return =>
      match c.stack with
      | [] => .err (.mk "Tried to return from an empty stack" none)
      | addr :: rest =>
        let r2 := { c.registers with program_counter := addr }
        .ok ({ c with stack := rest, registers := r2 }, true)
    | .Jump addr =>
      .ok ({ c with registers := { c.registers with program_counter := addr } },
        false)
    | .OffsetJump addr =>
      let r2 := { c.registers with program_counter := (addr + c.registers.values 0) % 65536 }
      .ok ({ c with registers := r2 }, false)
    | .Call addr =>
      let r2 := { c.registers with program_counter := addr }
      .ok ({ c with stack := c.registers.program_counter :: c.stack, registers := r2 }, false)
    | .CondJump left right cond =>
      if cond.evaluate (c.get_value left) (c.get_value right) then
        let r2 := { c.registers with program_counter := (c.registers.program_counter + 2) % 65536 }
        .ok ({ c with registers := r2 }, true)
      else .ok (c, true)
    | .ClearScreen =>
      .ok ({ c with vram := { c.vram with data := fun _ => 0 } }, true)
    | .Draw x_reg y_reg height =>
      match MemoryRange.new_len c.registers.address height with
      | none => .panicked
      | some r =>
        match c.memory.get_range r with
        | .err e => .err e
        | .panicked => .panicked
        | .ok sprite =>
          let x := c.registers.values x_reg
          let y := c.registers.values y_reg
          let (d, col) := drawRowsGo c.vram.data x y (sprite.take height)
          let vm2 := { c.vram with data := d }
          let r2 := setVal c.registers 15 (if col then 1 else 0)
          .ok ({ c with vram := vm2, registers := r2 }, true)
    | .BlockOnKey reg =>
      match (List.range KEY_NUM).find? (fun i => c.input.keys i ≠ .Released) with
      | some i => .ok ({ c with registers := setVal c.registers reg i }, true)
      | none => .ok (c, false)
    | .CondKeyJump reg cond =>
      let key := c.registers.values reg
      match c.input.is_down key with
      | .err e => .err e
      | .panicked => .panicked
      | .ok down =>
        if cond.evaluate down true then
          let r2 := { c.registers with program_counter := (c.registers.program_counter + 2) % 65536 }
          .ok ({ c with registers := r2 }, true)
        else .ok (c, true)
    | .GetDelayTimer reg =>
      .ok ({ c with registers := setVal c.registers reg c.timers.delay_timer }, true)
    | .SetTimer reg timer =>
      let value := c.registers.values reg
      match timer with
      | .Delay => .ok ({ c with timers := { c.timers with delay_timer := value } }, true)
      | .Sound => .ok ({ c with timers := { c.timers with sound_timer := value } }, true)
    | .Nop => .ok (c, true)
    | .WriteBCD reg =>
      let value := c.registers.values reg
      let base_addr := (c.registers.address + 2) % 65536
      match c.memory.set (sub16 base_addr 0) (value / 1 % 10) with
      | .err e => .err e
      | .panicked => .panicked
      | .ok m1 =>
        match m1.set (sub16 base_addr 1) (value / 10 % 10) with
        | .err e => .err e
        | .panicked => .panicked
        | .ok m2 =>
          match m2.set (sub16 base_addr 2) (value / 100 % 10) with
          | .err e => .err e
          | .panicked => .panicked
          | .ok m3 => .ok ({ c with memory := m3 }, true)
    | .DumpValueRegisters last =>
      match dumpGo c.memory c.registers.values c.registers.address
          (List.range (last + 1)) with
      | .ok m2 => .ok ({ c with memory := m2 }, true)
      | .err e => .err e
      | .panicked => .panicked
    | .LoadValueRegisters last =>
      match loadGo c.memory c.registers c.registers.address
          (List.range (last + 1)) with
      | .ok r2 => .ok ({ c with registers := r2 }, true)
      | .err e => .err e
      | .panicked => .panicked
    | .CallNative _ =>
      .err (.mk "Opcode not supported" none)
  match step with
  | .err e => .err e
  | .panicked => .panicked
  | .ok (c2, increment_pc) =>
    if increment_pc then
      let r2 := { c2.registers with program_counter := (c2.registers.program_counter + 2) % 65536 }
      .ok { c2 with registers := r2 }
    else .ok c2

/-- `CPU::tick`: advance the timers by the elapsed wall-clock time, advance
the input debounce (the host event pump is an external collaborator),
fetch through the mapper at the program counter, decode, interpret. -/
def Chip8.tick (c : Chip8) (elapsed rnd : Nat) : RRes Chip8 :=
  let c1 := { c with timers := c.timers.tick elapsed }
  let c2 := { c1 with input := c1.input.tick }
  match MemoryRange.new_len c2.registers.program_counter 2 with
  | none => .panicked
  | some r =>
    match c2.memory.get_range r with
    | .err e => .err e
    | .panicked => .panicked
    | .ok opcode_bytes =>
      match opcode_bytes with
      | b0 :: b1 :: _ =>
        match Opcode.decode (b0 * 256 + b1) with
        | .err e => .err e.toCErr
        | .panicked => .panicked
        | .ok opcode => c2.interpret opcode rnd
      | _ => .panicked

/-- The bit index of a pixel in the packed buffer, after the tolerant
modulo wrap of `get_index_offset`. -/
def pixelIndex (x y : Nat) : Nat := x % BIT_WIDTH + y % BIT_HEIGHT * BIT_WIDTH

/-- Read one pixel straight from a packed buffer, as `VideoMemory::get`
does (`(byte >> offset) & 1 == 1`). -/
def getPixelBit (data : Nat → Nat) (x y : Nat) : Bool :=
  decide ((data (pixelIndex x y / 8) >>> (pixelIndex x y % 8)) &&& 1 = 1)

/-- A mapper holding one two-byte read-write bank at 0x200-0x201, the
smallest configuration on which both instruction bytes at the program
counter are mapped. -/
def fetchMapper : MemoryMapper :=
  ⟨[⟨"Main Memory", ⟨0x200, 0x201⟩, .byteArray [0x12, 0x34]⟩]⟩

/-- A freshly reset machine (cf. `CPU::new` without the digits ROM) over
`fetchMapper`; the program counter is at reset value 0x200. -/
def fetchCpu : Chip8 :=
  ⟨Registers.new, ⟨0, 0, 0⟩, fetchMapper, [], VideoMemory.new, ⟨fun _ => .Released⟩⟩

/-- A reset machine with no memory banks, used to run a Call/Return pair
(neither instruction touches memory). -/
def callRetCpu : Chip8 :=
  ⟨Registers.new, ⟨0, 0, 0⟩, MemoryMapper.new, [], VideoMemory.new,
   ⟨fun _ => .Released⟩⟩

/-- The program counter observed after interpreting `Call 0x300` and then
`Return` on the reset machine. -/
def callRetPC : RRes Nat :=
  match Chip8.interpret callRetCpu (.Call 0x300) 0 with
  | .ok c1 =>
    match Chip8.interpret c1 .Return 0 with
    | .ok c2 => .ok c2.registers.program_counter
    | .err e => .err e
    | .panicked => .panicked
  | .err e => .err e
  | .panicked => .panicked

/-- A machine for exercising register-register arithmetic: V0 = 0xFF,
V1 = 0x02, memory-less. -/
def arithCpu : Chip8 :=
  ⟨⟨fun j => if j = 0 then 0xFF else if j = 1 then 2 else 0, 0x200, 0⟩,
   ⟨0, 0, 0⟩, MemoryMapper.new, [], VideoMemory.new, ⟨fun _ => .Released⟩⟩

/-- A machine for exercising `Draw`: a three-byte sprite bank at 0x000,
address register 0, V0 = 0 (x), V1 = 0 (y). -/
def drawCpu : Chip8 :=
  ⟨⟨fun _ => 0, 0x200, 0⟩, ⟨0, 0, 0⟩,
   ⟨[⟨"Sprite ROM", ⟨0x000, 0x002⟩, .byteArray [0xFF, 0x81, 0x00]⟩]⟩,
   [], VideoMemory.new, ⟨fun _ => .Released⟩⟩

/-- A video memory with two listeners attached, ids 0 then 1 in
registration order. -/
def vmTwo : VideoMemory := ⟨fun _ => 0, [0, 1], 2⟩

/-- The always-`Ok` listener-callback environment. -/
def cbOk : Nat → Option CErr := fun _ => none

/-- A one-bank mapper, bank "A" over 0x000-0x00A. -/
def mapperA : MemoryMapper := ⟨[⟨"A", ⟨0x000, 0x00A⟩, .byteArray [0]⟩]⟩

/-- The range 0x005-0x00F, overlapping bank "A" of `mapperA`. -/
def rangeB : MemoryRange := ⟨0x005, 0x00F⟩

/-- C1: the claim says `0x5XY0`/`0x9XY0` decode to a conditional skip whose
right operand is register Y (second-lowest nibble).  The decoder instead
computes the right register as `(value & 0x00F0) >> 8`, which is zero for
every word, so 0x5120 compares V1 against V0 (not V2) and 0x9340 compares
V3 against V0 (not V4): the right-hand register of a register-register
skip is always register 0. -/
theorem decode_regreg_skip_right_register :
    Opcode.decode 0x5120 = .ok (.CondJump (.Register 1) (.Register 0) .Equal) ∧
    Opcode.decode 0x9340 = .ok (.CondJump (.Register 3) (.Register 0) .NotEqual) ∧
    (∀ v : Nat, v / 16 % 16 * 16 / 256 = 0) := by
  refine ⟨by decide, by decide, ?_⟩
  intro v
  have h : v / 16 % 16 < 16 := Nat.mod_lt _ (by norm_num)
  omega

/-- C2: the claim says a tick's fetch reads exactly the two bytes at the
program counter and the next address.  `new_len(pc, 2)` is the inclusive
range `[pc, pc + 2]`, so the fetch reads three addresses, and a tick
aborts on a machine whose memory maps both instruction bytes (0x200 and
0x201 here) but not `pc + 2`. -/
theorem tick_fetch_reads_three_bytes :
    MemoryRange.new_len 0x200 2 = some ⟨0x200, 0x202⟩ ∧
    MemoryRange.toList ⟨0x200, 0x202⟩ = [0x200, 0x201, 0x202] ∧
    fetchCpu.memory.get 0x200 = .ok 0x12 ∧
    fetchCpu.memory.get 0x201 = .ok 0x34 ∧
    fetchCpu.memory.get 0x202 = .err (unmappedErr 0x202) ∧
    Chip8.tick fetchCpu 0 0 = .err (unmappedErr 0x202) :=
  ⟨rfl, by decide, rfl, rfl, rfl, rfl⟩

/-- C3: the claim says the sound counter decrements on the same 60 Hz
schedule as the delay counter.  `Timers::tick` never touches
`sound_timer`: after exactly one 1/60 s period the delay counter drops
from 5 to 4 while the sound counter stays at 5. -/
theorem sound_timer_never_decrements :
    (∀ (t : Timers) (elapsed : Nat), (t.tick elapsed).sound_timer = t.sound_timer) ∧
    Timers.tick ⟨5, 5, 0⟩ DELAY_FREQUENCY = ⟨4, 5, 0⟩ :=
  ⟨fun _ _ => rfl, by decide⟩

/-- C6 (counterexample): on the reset machine the program counter is
0x200; interpreting `Call 0x300` and then `Return` leaves it at 0x202,
not at the exact pre-call value 0x200 as the claim states. -/
theorem call_return_pc_counterexample :
    callRetCpu.registers.program_counter = 0x200 ∧
    callRetPC = .ok 0x202 ∧ (0x202 : Nat) ≠ 0x200 :=
  ⟨rfl, rfl, by decide⟩

/-- C6 (amended): `Call` pushes the current (pre-redirect) program counter
and suppresses the post-instruction increment (the counter is left exactly
at the call target); a `Call` followed immediately by `Return` restores
the pushed pre-call value and then applies `Return`'s default increment,
leaving the program counter at the pre-call value plus 2 — the
instruction after the call — with the stack restored. -/
theorem call_pushes_and_return_resumes_after_call :
    ∀ (c : Chip8) (addr rnd1 rnd2 : Nat),
    ∃ c1 c2,
      c.interpret (.Call addr) rnd1 = .ok c1 ∧
      c1.stack = c.registers.program_counter :: c.stack ∧
      c1.registers.program_counter = addr ∧
      c1.interpret .Return rnd2 = .ok c2 ∧
      c2.stack = c.stack ∧
      c2.registers.program_counter = (c.registers.program_counter + 2) % 65536 := by
  intro c addr rnd1 rnd2
  exact ⟨_, _, rfl, rfl, rfl, rfl, rfl, rfl⟩

/-- C4: register-register `Add` stores the wrapped sum and writes 1 into
flag register 15 exactly on unsigned overflow; register-register `Sub` and
`ReverseSub` store the wrapped difference and write 1 exactly when no
borrow occurred (0 on borrow) — the inverted-borrow convention; and the
spec's concrete cases 0xFF+0x02, 0x01-0x02 and 0x05-0x02 evaluate as
stated.  (When the destination is register 15 itself the flag write
overwrites the stored sum, so the stored-result clause is conditional on
`l ≠ 15`.) -/
theorem regreg_arith_carry_borrow :
    (∀ (c : Chip8) (l r rnd : Nat),
      c.registers.values l < 256 → c.registers.values r < 256 →
      ∃ c', c.interpret (.Assign l (.Register r) .Add) rnd = .ok c' ∧
        (l ≠ 15 → c'.registers.values l =
          (c.registers.values l + c.registers.values r) % 256) ∧
        c'.registers.values 15 =
          (if 256 ≤ c.registers.values l + c.registers.values r then 1 else 0)) ∧
    (∀ (c : Chip8) (l r rnd : Nat),
      c.registers.values l < 256 → c.registers.values r < 256 →
      ∃ c', c.interpret (.Assign l (.Register r) .Sub) rnd = .ok c' ∧
        (l ≠ 15 → c'.registers.values l =
          (c.registers.values l + 256 - c.registers.values r) % 256) ∧
        c'.registers.values 15 =
          (if c.registers.values r ≤ c.registers.values l then 1 else 0)) ∧
    (∀ (c : Chip8) (l r rnd : Nat),
      c.registers.values l < 256 → c.registers.values r < 256 →
      ∃ c', c.interpret (.Assign l (.Register r) .ReverseSub) rnd = .ok c' ∧
        (l ≠ 15 → c'.registers.values l =
          (c.registers.values r + 256 - c.registers.values l) % 256) ∧
        c'.registers.values 15 =
          (if c.registers.values l ≤ c.registers.values r then 1 else 0)) ∧
    Operation.evaluate .Add 0xFF 0x02 = (0x01, some true) ∧
    Operation.evaluate .Sub 0x01 0x02 = (0xFF, some false) ∧
    Operation.evaluate .Sub 0x05 0x02 = (0x03, some true) := by
  refine ⟨?_, ?_, ?_, by decide, by decide, by decide⟩
  · intro c l r rnd _ _
    refine ⟨_, rfl, ?_, ?_⟩
    · intro hl
      simp [Chip8.interpret, setVal, Operation.evaluate, Chip8.get_value, hl]
    · simp [Chip8.interpret, setVal, Operation.evaluate, Chip8.get_value]
  · intro c l r rnd _ _
    refine ⟨_, rfl, ?_, ?_⟩
    · intro hl
      simp [Chip8.interpret, setVal, Operation.evaluate, Chip8.get_value, hl]
    · simp [Chip8.interpret, setVal, Operation.evaluate, Chip8.get_value, Nat.not_lt]
  · intro c l r rnd _ _
    refine ⟨_, rfl, ?_, ?_⟩
    · intro hl
      simp [Chip8.interpret, setVal, Operation.evaluate, Chip8.get_value, hl]
    · simp [Chip8.interpret, setVal, Operation.evaluate, Chip8.get_value, Nat.not_lt]

/-- C4 (witness): the Add clause applied to the machine with V0 = 0xFF and
V1 = 0x02. -/
theorem regreg_arith_carry_borrow_witness :
    arithCpu.registers.values 0 < 256 ∧ arithCpu.registers.values 1 < 256 ∧
    (∃ c', arithCpu.interpret (.Assign 0 (.Register 1) .Add) 0 = .ok c' ∧
      ((0 : Nat) ≠ 15 → c'.registers.values 0 =
        (arithCpu.registers.values 0 + arithCpu.registers.values 1) % 256) ∧
      c'.registers.values 15 =
        (if 256 ≤ arithCpu.registers.values 0 + arithCpu.registers.values 1
         then 1 else 0)) :=
  ⟨by decide, by decide,
   regreg_arith_carry_borrow.1 arithCpu 0 1 0 (by decide) (by decide)⟩

/-- C7: over all 16-bit words, the decoder never reaches a `panic!` arm,
succeeds exactly on the words of the dispatch table (`recognizedTable`),
and every failure is an error carrying the offending word — with the
spec's examples 0x8009 and 0xE000 rejected as stated. -/
theorem decode_total_on_dispatch_table :
    (∀ v : Nat, v < 65536 →
      (Opcode.decode v ≠ .panicked) ∧
      ((∃ op, Opcode.decode v = .ok op) ↔ recognizedTable v = true) ∧
      (∀ e, Opcode.decode v = .err e → e.word = v)) ∧
    Opcode.decode 0x8009 = .err (.lastNibbleInvalid 0x8009) ∧
    Opcode.decode 0xE000 = .err (.lastByteInvalid 0xE000) := by
  refine ⟨?_, by decide, by decide⟩
  intro v hv
  by_cases hz : v = 0
  · subst hz; simp [Opcode.decode, recognizedTable]
  by_cases he0 : v = 224
  · subst he0; simp [Opcode.decode, recognizedTable]
  by_cases hee : v = 238
  · subst hee; simp [Opcode.decode, recognizedTable]
  have hsplit : v / 4096 % 16 = 0 ∨ v / 4096 % 16 = 1 ∨ v / 4096 % 16 = 2 ∨
      v / 4096 % 16 = 3 ∨ v / 4096 % 16 = 4 ∨ v / 4096 % 16 = 5 ∨
      v / 4096 % 16 = 6 ∨ v / 4096 % 16 = 7 ∨ v / 4096 % 16 = 8 ∨
      v / 4096 % 16 = 9 ∨ v / 4096 % 16 = 10 ∨ v / 4096 % 16 = 11 ∨
      v / 4096 % 16 = 12 ∨ v / 4096 % 16 = 13 ∨ v / 4096 % 16 = 14 ∨
      v / 4096 % 16 = 15 := by omega
  rcases hsplit with h|h|h|h|h|h|h|h|h|h|h|h|h|h|h|h
  · simp only [Opcode.decode, recognizedTable, h, hz, he0, hee] <;> norm_num <;>
      simp [DecodeErr.word]
  · simp only [Opcode.decode, recognizedTable, h, hz, he0, hee] <;> norm_num <;>
      simp [DecodeErr.word]
  · simp only [Opcode.decode, recognizedTable, h, hz, he0, hee] <;> norm_num <;>
      simp [DecodeErr.word]
  · simp only [Opcode.decode, recognizedTable, h, hz, he0, hee] <;> norm_num <;>
      simp [DecodeErr.word]
  · simp only [Opcode.decode, recognizedTable, h, hz, he0, hee] <;> norm_num <;>
      simp [DecodeErr.word]
  · simp only [Opcode.decode, recognizedTable, h, hz, he0, hee] <;> norm_num <;>
      simp [DecodeErr.word]
  · simp only [Opcode.decode, recognizedTable, h, hz, he0, hee] <;> norm_num <;>
      simp [DecodeErr.word]
  · simp only [Opcode.decode, recognizedTable, h, hz, he0, hee] <;> norm_num <;>
      simp [DecodeErr.word]
  · simp only [Opcode.decode, recognizedTable, h, hz, he0, hee] <;> norm_num <;>
      (rcases (show v % 16 = 0 ∨ v % 16 = 1 ∨ v % 16 = 2 ∨ v % 16 = 3 ∨
          v % 16 = 4 ∨ v % 16 = 5 ∨ v % 16 = 6 ∨ v % 16 = 7 ∨ v % 16 = 8 ∨
          v % 16 = 9 ∨ v % 16 = 10 ∨ v % 16 = 11 ∨ v % 16 = 12 ∨
          v % 16 = 13 ∨ v % 16 = 14 ∨ v % 16 = 15 from by omega) with
          hl|hl|hl|hl|hl|hl|hl|hl|hl|hl|hl|hl|hl|hl|hl|hl <;>
        simp_all [DecodeErr.word])
  · simp only [Opcode.decode, recognizedTable, h, hz, he0, hee] <;> norm_num <;>
      simp [DecodeErr.word]
  · simp only [Opcode.decode, recognizedTable, h, hz, he0, hee] <;> norm_num <;>
      simp [DecodeErr.word]
  · simp only [Opcode.decode, recognizedTable, h, hz, he0, hee] <;> norm_num <;>
      simp [DecodeErr.word]
  · simp only [Opcode.decode, recognizedTable, h, hz, he0, hee] <;> norm_num <;>
      simp [DecodeErr.word]
  · simp only [Opcode.decode, recognizedTable, h, hz, he0, hee] <;> norm_num <;>
      simp [DecodeErr.word]
  · simp only [Opcode.decode, recognizedTable, h, hz, he0, hee] <;> norm_num <;>
      (rcases (show v % 256 = 158 ∨ v % 256 = 161 ∨
          (¬v % 256 = 158 ∧ ¬v % 256 = 161) from by omega) with hl|hl|hl <;>
        simp_all [DecodeErr.word])
  · simp only [Opcode.decode, recognizedTable, h, hz, he0, hee] <;> norm_num <;>
      (rcases (show v % 256 = 7 ∨ v % 256 = 10 ∨ v % 256 = 21 ∨ v % 256 = 24 ∨
          v % 256 = 30 ∨ v % 256 = 41 ∨ v % 256 = 51 ∨ v % 256 = 85 ∨
          v % 256 = 101 ∨ (¬v % 256 = 7 ∧ ¬v % 256 = 10 ∧ ¬v % 256 = 21 ∧
          ¬v % 256 = 24 ∧ ¬v % 256 = 30 ∧ ¬v % 256 = 41 ∧ ¬v % 256 = 51 ∧
          ¬v % 256 = 85 ∧ ¬v % 256 = 101) from by omega) with
          hl|hl|hl|hl|hl|hl|hl|hl|hl|hl <;>
        simp_all [DecodeErr.word])

/-- C7 (witness): the classification applied to the unrecognized word
0x8009. -/
theorem decode_total_on_dispatch_table_witness :
    (0x8009 : Nat) < 65536 ∧
    ((Opcode.decode 0x8009 ≠ .panicked) ∧
     ((∃ op, Opcode.decode 0x8009 = .ok op) ↔ recognizedTable 0x8009 = true) ∧
     (∀ e, Opcode.decode 0x8009 = .err e → e.word = 0x8009)) :=
  ⟨by decide, decode_total_on_dispatch_table.1 0x8009 (by decide)⟩


/-- C8: `MemoryMapper::add` rejects a registration exactly when the new
range overlaps some already-registered bank's range; on rejection the
mapper is unchanged and the error is built (via `overlapErrOf`) from the
complete list of conflicting banks — every bank whose range overlaps is in
that list; and every mapper reachable from `new` through `add` has
pairwise non-overlapping banks. -/
theorem mapper_add_rejects_iff_overlap :
    (∀ (m : MemoryMapper) (bank : BankStore) (range : MemoryRange) (name : String),
      ((m.add bank range name).1.isSome = true ↔
        ∃ b ∈ m.banks, b.range.overlaps range = true) ∧
      ((m.add bank range name).1.isSome = true →
        (m.add bank range name).2 = m ∧
        (m.add bank range name).1 =
          some (overlapErrOf (m.banks.filter (fun x => x.range.overlaps range)))) ∧
      (∀ b ∈ m.banks, b.range.overlaps range = true →
        b ∈ m.banks.filter (fun x => x.range.overlaps range))) ∧
    (∀ m, ReachableMapper m →
      m.banks.Pairwise (fun a b => a.range.overlaps b.range = false)) := by
  constructor
  · intro m bank range name
    refine ⟨?_, ?_, ?_⟩
    · by_cases hempty : (m.banks.filter (fun x => x.range.overlaps range)).isEmpty
      · simp only [MemoryMapper.add, hempty, if_pos, Option.isSome_none,
          Bool.false_eq_true, false_iff]
        rintro ⟨b, hb, hov⟩
        have := List.filter_eq_nil.mp (List.isEmpty_iff_eq_nil.mp hempty) b hb
        simp [hov] at this
      · simp only [MemoryMapper.add, hempty, if_neg, Bool.false_eq_true,
          not_false_iff, Option.isSome_some, true_iff]
        rw [List.isEmpty_iff_eq_nil] at hempty
        rcases List.exists_mem_of_ne_nil _ hempty with ⟨b, hb⟩
        have := List.mem_filter.mp hb
        exact ⟨b, this.1, this.2⟩
    · intro hsome
      by_cases hempty : (m.banks.filter (fun x => x.range.overlaps range)).isEmpty
      · simp [MemoryMapper.add, hempty] at hsome
      · simp [MemoryMapper.add, hempty]
    · intro b hb hov
      exact List.mem_filter.mpr ⟨hb, hov⟩
  · intro m hm
    induction hm with
    | new => simp [MemoryMapper.new]
    | add m bank range name hm ih =>
      by_cases hempty : (m.banks.filter (fun x => x.range.overlaps range)).isEmpty
      · simp only [MemoryMapper.add, hempty, if_pos]
        rw [List.pairwise_append]
        refine ⟨ih, by simp, ?_⟩
        intro a ha b hb
        simp only [List.mem_singleton] at hb
        subst hb
        have := List.filter_eq_nil.mp (List.isEmpty_iff_eq_nil.mp hempty) a ha
        simpa using this
      · simp only [MemoryMapper.add, hempty, if_neg, Bool.false_eq_true,
          not_false_iff]
        exact ih

/-- C8 (witness): the rejection test applied to a mapper with one bank and
an overlapping range, and the invariant applied to the reachable one-bank
mapper. -/
theorem mapper_add_rejects_iff_overlap_witness :
    (((mapperA.add (.byteArray []) rangeB "B").1.isSome = true ↔
        ∃ b ∈ mapperA.banks, b.range.overlaps rangeB = true)) ∧
    mapperA.banks.Pairwise (fun a b => a.range.overlaps b.range = false) :=
  ⟨(mapper_add_rejects_iff_overlap.1 mapperA (.byteArray []) rangeB "B").1,
   mapper_add_rejects_iff_overlap.2 mapperA
     (ReachableMapper.add MemoryMapper.new (.byteArray [0]) ⟨0x000, 0x00A⟩ "A"
       ReachableMapper.new)⟩

/-- When no listener callback fails, the notification loop invokes every
listener of the iteration order exactly once, in that order. -/
theorem notifyAll_ok (iter : List Nat) (cb : Nat → Option CErr) (ev : VideoEvent)
    (h : ∀ i, cb i = none) :
    notifyAll iter cb ev = (iter.map (fun i => (i, ev)), none) := by
  induction iter with
  | nil => rfl
  | cons i rest ih => simp [notifyAll, h i, ih]

/-- C9 (amended): every mutating `VideoMemory` call (`set`, `flip`,
`clear`) notifies all currently attached listeners — with the specific
pixel coordinates and new value for `set`/`flip`, or a clear notification
for `clear` — in the hash map's iteration order (an arbitrary permutation
of the attached listener ids), assuming no callback fails. -/
theorem video_mutations_notify_iteration_order :
    ∀ (vm : VideoMemory) (iter : List Nat) (cb : Nat → Option CErr) (x y : Nat)
      (value : Bool), iter.Perm vm.listeners → (∀ i, cb i = none) →
      ((vm.set iter cb x y value).2.2 =
        iter.map (fun i => (i, VideoEvent.change x y value)) ∧
       ∀ i ∈ vm.listeners,
         (i, VideoEvent.change x y value) ∈ (vm.set iter cb x y value).2.2) ∧
      ((vm.flip iter cb x y).2.2 =
        iter.map (fun i => (i, VideoEvent.change x y (flipData vm.data x y).2)) ∧
       ∀ i ∈ vm.listeners,
         (i, VideoEvent.change x y (flipData vm.data x y).2) ∈
           (vm.flip iter cb x y).2.2) ∧
      ((vm.clear iter cb).2.2 = iter.map (fun i => (i, VideoEvent.cleared)) ∧
       ∀ i ∈ vm.listeners,
         (i, VideoEvent.cleared) ∈ (vm.clear iter cb).2.2) := by
  intro vm iter cb x y value hperm hcb
  have hset : (vm.set iter cb x y value).2.2 =
      iter.map (fun i => (i, VideoEvent.change x y value)) := by
    simp [VideoMemory.set, notifyAll_ok iter cb _ hcb]
  have hflip : (vm.flip iter cb x y).2.2 =
      iter.map (fun i => (i, VideoEvent.change x y (flipData vm.data x y).2)) := by
    simp [VideoMemory.flip, notifyAll_ok iter cb _ hcb]
  have hclear : (vm.clear iter cb).2.2 =
      iter.map (fun i => (i, VideoEvent.cleared)) := by
    simp [VideoMemory.clear, notifyAll_ok iter cb _ hcb]
  refine ⟨⟨hset, ?_⟩, ⟨hflip, ?_⟩, ⟨hclear, ?_⟩⟩ <;>
    intro i hi <;>
    first
      | (rw [hset]; exact List.mem_map.mpr ⟨i, hperm.mem_iff.mpr hi, rfl⟩)
      | (rw [hflip]; exact List.mem_map.mpr ⟨i, hperm.mem_iff.mpr hi, rfl⟩)
      | (rw [hclear]; exact List.mem_map.mpr ⟨i, hperm.mem_iff.mpr hi, rfl⟩)

/-- C9 (witness): the `set` clause applied to the two-listener registry
with iteration order [1, 0]. -/
theorem video_mutations_notify_iteration_order_witness :
    List.Perm [1, 0] vmTwo.listeners ∧ (∀ i, cbOk i = none) ∧
    ((vmTwo.set [1, 0] cbOk 3 4 true).2.2 =
      [1, 0].map (fun i => (i, VideoEvent.change 3 4 true)) ∧
     ∀ i ∈ vmTwo.listeners,
       (i, VideoEvent.change 3 4 true) ∈ (vmTwo.set [1, 0] cbOk 3 4 true).2.2) :=
  ⟨List.Perm.swap 0 1 [], fun _ => rfl,
   (video_mutations_notify_iteration_order vmTwo [1, 0] cbOk 3 4 true
     (List.Perm.swap 0 1 []) (fun _ => rfl)).1⟩

/-- C9 (counterexample): the listeners live in a `HashMap`, whose
iteration order is unspecified; with listeners registered in order 0 then
1, the legal iteration order [1, 0] produces the notification sequence
[(1, _), (0, _)], which is not the listener-registration order — refuting
the claim's ordering guarantee. -/
theorem video_notification_order_counterexample :
    vmTwo.listeners = [0, 1] ∧
    List.Perm [1, 0] vmTwo.listeners ∧
    (vmTwo.flip [1, 0] cbOk 3 4).2.2 =
      [(1, VideoEvent.change 3 4 true), (0, VideoEvent.change 3 4 true)] ∧
    (vmTwo.flip [1, 0] cbOk 3 4).2.2 ≠
      vmTwo.listeners.map (fun i => (i, VideoEvent.change 3 4 true)) :=
  ⟨rfl, List.Perm.swap 0 1 [], rfl, by decide⟩

/-- C10: for every coordinate pair, `get`/`set`/`flip` operate on the
pixel at (x mod 64, y mod 32): `get_index_offset` always succeeds with a
byte index inside the 256-byte buffer, the resulting state and value are
those of the wrapped coordinates, and `set`/`flip`/`clear` succeed
whenever no listener callback fails (the callbacks being their only
failure source; `get` always succeeds). -/
theorem video_coordinates_wrap_and_never_error :
    ∀ (vm : VideoMemory) (iter : List Nat) (cb : Nat → Option CErr) (x y : Nat)
      (value : Bool),
      (VideoMemory.get_index_offset x y =
        VideoMemory.get_index_offset (x % 64) (y % 32) ∧
       ∃ p, VideoMemory.get_index_offset x y = .ok p ∧ p.1 < VRAM_LEN) ∧
      vm.get x y = vm.get (x % 64) (y % 32) ∧
      (∃ b, vm.get x y = .ok b) ∧
      (vm.set iter cb x y value).1 = (vm.set iter cb (x % 64) (y % 32) value).1 ∧
      (vm.flip iter cb x y).1 = (vm.flip iter cb (x % 64) (y % 32)).1 ∧
      ((∀ i, cb i = none) →
        (∃ b, (vm.set iter cb x y value).2.1 = .ok b) ∧
        (∃ b, (vm.flip iter cb x y).2.1 = .ok b) ∧
        (vm.clear iter cb).2.1 = .ok ()) := by
  intro vm iter cb x y value
  have hsum : x % 64 % 64 + y % 32 % 32 * 64 = x % 64 + y % 32 * 64 := by omega
  refine ⟨⟨?_, ⟨_, rfl, ?_⟩⟩, ?_, ⟨_, rfl⟩, ?_, ?_, ?_⟩
  · simp [VideoMemory.get_index_offset, BIT_WIDTH, BIT_HEIGHT, hsum]
  · simp only [VRAM_LEN, BIT_WIDTH, BIT_HEIGHT]
    omega
  · simp [VideoMemory.get, VideoMemory.get_index_offset, BIT_WIDTH, BIT_HEIGHT, hsum]
  · simp [VideoMemory.set, setData, VideoMemory.get_index_offset, BIT_WIDTH,
      BIT_HEIGHT, hsum]
  · simp [VideoMemory.flip, flipData, VideoMemory.get_index_offset, BIT_WIDTH,
      BIT_HEIGHT, hsum]
  · intro hcb
    have h1 : (vm.set iter cb x y value).2.1 = .ok (setData vm.data x y value).2 := by
      simp [VideoMemory.set, notifyAll_ok iter cb _ hcb]
    have h2 : (vm.flip iter cb x y).2.1 = .ok (flipData vm.data x y).2 := by
      simp [VideoMemory.flip, notifyAll_ok iter cb _ hcb]
    have h3 : (vm.clear iter cb).2.1 = .ok () := by
      simp [VideoMemory.clear, notifyAll_ok iter cb _ hcb]
    exact ⟨⟨_, h1⟩, ⟨_, h2⟩, h3⟩

/-- C10 (witness): the wrap equalities applied at (70, 40), which wraps to
(6, 8). -/
theorem video_coordinates_wrap_witness :
    (∀ i, cbOk i = none) ∧
    (vmTwo.flip [0, 1] cbOk 70 40).1 = (vmTwo.flip [0, 1] cbOk (70 % 64) (40 % 32)).1 ∧
    (∃ b, (vmTwo.flip [0, 1] cbOk 70 40).2.1 = .ok b) :=
  ⟨fun _ => rfl,
   (video_coordinates_wrap_and_never_error vmTwo [0, 1] cbOk 70 40 true).2.2.2.2.1,
   ((video_coordinates_wrap_and_never_error vmTwo [0, 1] cbOk 70 40 true).2.2.2.2.2
     (fun _ => rfl)).2.1⟩

/-- Reading a packed pixel is testing one bit of its byte. -/
theorem getPixelBit_eq_testBit (data : Nat → Nat) (x y : Nat) :
    getPixelBit data x y =
      (data (pixelIndex x y / 8)).testBit (pixelIndex x y % 8) := by
  simp [getPixelBit, Nat.testBit_to_div_mod, Nat.shiftRight_eq_div_pow,
    Nat.and_one_is_mod]

/-- Two coordinate pairs address the same packed bit exactly when they
agree modulo the frame dimensions. -/
theorem pixelIndex_eq_iff (x1 y1 x2 y2 : Nat) :
    pixelIndex x1 y1 = pixelIndex x2 y2 ↔
      x1 % 64 = x2 % 64 ∧ y1 % 32 = y2 % 32 := by
  simp only [pixelIndex, BIT_WIDTH, BIT_HEIGHT]
  omega

/-- The buffer produced by a flip: the pixel's byte XORed with the pixel's
bit mask, all other bytes untouched. -/
theorem flipData_fst (data : Nat → Nat) (x y : Nat) :
    (flipData data x y).1 = fun j =>
      if j = pixelIndex x y / 8
      then data (pixelIndex x y / 8) ^^^ (1 <<< (pixelIndex x y % 8))
      else data j := by
  simp [flipData, VideoMemory.get_index_offset, pixelIndex, BIT_WIDTH, BIT_HEIGHT]

/-- The source's `(byte >> k) & 1 == 1` test is `Nat.testBit`. -/
theorem decide_shift_and_one (n k : Nat) :
    decide ((n >>> k) &&& 1 = 1) = n.testBit k := by
  simp [Nat.testBit_to_div_mod, Nat.shiftRight_eq_div_pow, Nat.and_one_is_mod]

/-- A flip returns the negation of the pixel's previous value. -/
theorem flipData_snd (data : Nat → Nat) (x y : Nat) :
    (flipData data x y).2 = !(getPixelBit data x y) := by
  rw [getPixelBit_eq_testBit]
  simp only [flipData, VideoMemory.get_index_offset, pixelIndex, BIT_WIDTH,
    BIT_HEIGHT, if_pos, eq_self_iff_true, if_true]
  rw [decide_shift_and_one, Nat.one_shiftLeft]
  simp [Nat.testBit_xor, Nat.testBit_two_pow_self]

/-- After a flip, the flipped pixel reads as the negation of its previous
value. -/
theorem getPixelBit_flipData_self (data : Nat → Nat) (x y : Nat) :
    getPixelBit (flipData data x y).1 x y = !(getPixelBit data x y) := by
  rw [getPixelBit_eq_testBit, getPixelBit_eq_testBit]
  simp only [flipData_fst, eq_self_iff_true, if_true, if_pos]
  rw [Nat.one_shiftLeft]
  simp [Nat.testBit_xor, Nat.testBit_two_pow_self]

/-- A flip leaves every pixel with a different packed bit index
unchanged. -/
theorem getPixelBit_flipData_other (data : Nat → Nat) (x y x2 y2 : Nat)
    (h : pixelIndex x2 y2 ≠ pixelIndex x y) :
    getPixelBit (flipData data x y).1 x2 y2 = getPixelBit data x2 y2 := by
  rw [getPixelBit_eq_testBit, getPixelBit_eq_testBit]
  by_cases hb : pixelIndex x2 y2 / 8 = pixelIndex x y / 8
  · have hoff : pixelIndex x2 y2 % 8 ≠ pixelIndex x y % 8 := by omega
    simp only [flipData_fst, hb, eq_self_iff_true, if_true, if_pos]
    rw [Nat.one_shiftLeft]
    simp [Nat.testBit_xor, Nat.testBit_two_pow_of_ne (Ne.symm hoff)]
  · simp only [flipData_fst, hb, if_neg, if_false]

/-- `drawBitsTr` traverses the same flips as `drawBits`; the row's
collision flag is the disjunction of the negated flip results. -/
theorem drawBits_eq_tr (x y byte : Nat) : ∀ (dxs : List Nat) (data : Nat → Nat),
    (drawBitsTr data x y byte dxs).1 = (drawBits data x y byte dxs).1 ∧
    (drawBits data x y byte dxs).2 =
      (drawBitsTr data x y byte dxs).2.any (fun b => !b) := by
  intro dxs
  induction dxs with
  | nil => intro data; exact ⟨rfl, rfl⟩
  | cons dx rest ih =>
    intro data
    by_cases hbit : (byte >>> (7 - dx)) &&& 1 = 1
    · simp only [drawBits, drawBitsTr, hbit, if_pos]
      rcases hfd : flipData data (x + dx) y with ⟨d1, np⟩
      simp only []
      rcases ih d1 with ⟨ih1, ih2⟩
      constructor
      · simp [ih1]
      · simp [ih2, List.any_cons]
    · simp only [drawBits, drawBitsTr, hbit, if_neg, if_false]
      exact ih data

/-- `drawRowsTr` traverses the same flips as `drawRowsGo`; the sprite's
collision flag aggregates every row's flip results into one value. -/
theorem drawRows_eq_tr (x : Nat) : ∀ (rows : List Nat) (data : Nat → Nat) (ycur : Nat),
    (drawRowsTr data x ycur rows).1 = (drawRowsGo data x ycur rows).1 ∧
    (drawRowsGo data x ycur rows).2 =
      (drawRowsTr data x ycur rows).2.any (fun b => !b) := by
  intro rows
  induction rows with
  | nil => intro data ycur; exact ⟨rfl, rfl⟩
  | cons byte rest ih =>
    intro data ycur
    obtain ⟨hb1, hb2⟩ := drawBits_eq_tr x ycur byte (List.range 8) data
    rcases h1 : drawBitsTr data x ycur byte (List.range 8) with ⟨dT, t1⟩
    rcases h2 : drawBits data x ycur byte (List.range 8) with ⟨dG, c1⟩
    rw [h1, h2] at hb1 hb2
    simp only at hb1 hb2
    subst hb1
    obtain ⟨ih1, ih2⟩ := ih dT (ycur + 1)
    rcases h3 : drawRowsTr dT x (ycur + 1) rest with ⟨dT2, t2⟩
    rcases h4 : drawRowsGo dT x (ycur + 1) rest with ⟨dG2, c2⟩
    rw [h3, h4] at ih1 ih2
    simp only at ih1 ih2
    subst ih1
    simp only [drawRowsGo, drawRowsTr, h1, h2, h3, h4]
    exact ⟨trivial, by simp [hb2, ih2, List.any_append]⟩

/-- Drawing one sprite row over pixels that are all unset, at pairwise
distinct packed positions, reports no collision and touches no other
pixel. -/
theorem drawBits_no_collision (x y byte : Nat) : ∀ (dxs : List Nat) (data : Nat → Nat),
    (∀ dx ∈ dxs, getPixelBit data (x + dx) y = false) →
    dxs.Pairwise (fun a b => pixelIndex (x + a) y ≠ pixelIndex (x + b) y) →
    (drawBits data x y byte dxs).2 = false ∧
    (∀ x2 y2, (∀ dx ∈ dxs, pixelIndex x2 y2 ≠ pixelIndex (x + dx) y) →
      getPixelBit (drawBits data x y byte dxs).1 x2 y2 = getPixelBit data x2 y2) := by
  intro dxs
  induction dxs with
  | nil => intro data _ _; exact ⟨rfl, fun _ _ _ => rfl⟩
  | cons dx rest ih =>
    intro data hfresh hdist
    obtain ⟨hdh, hdt⟩ := List.pairwise_cons.mp hdist
    by_cases hbit : (byte >>> (7 - dx)) &&& 1 = 1
    · rcases hfd : flipData data (x + dx) y with ⟨d1, np⟩
      have hd1 : d1 = (flipData data (x + dx) y).1 := by rw [hfd]
      have hnp : np = !(getPixelBit data (x + dx) y) := by
        rw [← flipData_snd data (x + dx) y, hfd]
      have hnp2 : np = true := by
        rw [hnp, hfresh dx (List.mem_cons_self dx rest)]
        rfl
      have hfresh2 : ∀ dx2 ∈ rest, getPixelBit d1 (x + dx2) y = false := by
        intro dx2 h2
        rw [hd1, getPixelBit_flipData_other data (x + dx) y (x + dx2) y
          (Ne.symm (hdh dx2 h2))]
        exact hfresh dx2 (List.mem_cons_of_mem _ h2)
      obtain ⟨ihc, ihu⟩ := ih d1 hfresh2 hdt
      simp only [drawBits, hbit, if_pos, hfd]
      constructor
      · rcases h2 : drawBits d1 x y byte rest with ⟨d2, col⟩
        rw [h2] at ihc
        simp only at ihc
        simp [h2, hnp2, ihc]
      · intro x2 y2 havoid
        rcases h2 : drawBits d1 x y byte rest with ⟨d2, col⟩
        have h3 := ihu x2 y2
          (fun dx2 hm => havoid dx2 (List.mem_cons_of_mem _ hm))
        rw [h2] at h3
        simp only at h3
        simp only [h2]
        rw [h3, hd1, getPixelBit_flipData_other data (x + dx) y x2 y2
          (havoid dx (List.mem_cons_self dx rest))]
    · simp only [drawBits, hbit, if_neg, if_false]
      obtain ⟨ihc, ihu⟩ := ih data
        (fun dx2 h2 => hfresh dx2 (List.mem_cons_of_mem _ h2)) hdt
      exact ⟨ihc, fun x2 y2 havoid =>
        ihu x2 y2 (fun dx2 hm => havoid dx2 (List.mem_cons_of_mem _ hm))⟩

/-- Drawing a sprite over pixels that are all unset, with all rows at
distinct wrapped screen rows, reports no collision and touches no other
pixel. -/
theorem drawRows_no_collision (x : Nat) : ∀ (rows : List Nat) (data : Nat → Nat) (ycur : Nat),
    (∀ j, j < rows.length → ∀ dx, dx < 8 →
      getPixelBit data (x + dx) (ycur + j) = false) →
    (∀ i j, i < j → j < rows.length → (ycur + i) % 32 ≠ (ycur + j) % 32) →
    (drawRowsGo data x ycur rows).2 = false ∧
    (∀ x2 y2, (∀ j, j < rows.length → ∀ dx, dx < 8 →
        pixelIndex x2 y2 ≠ pixelIndex (x + dx) (ycur + j)) →
      getPixelBit (drawRowsGo data x ycur rows).1 x2 y2 = getPixelBit data x2 y2) := by
  intro rows
  induction rows with
  | nil => intro data ycur _ _; exact ⟨rfl, fun _ _ _ => rfl⟩
  | cons byte rest ih =>
    intro data ycur hfresh hdisty
    have hrange : (List.range 8).Pairwise
        (fun a b => pixelIndex (x + a) ycur ≠ pixelIndex (x + b) ycur) := by
      refine (List.pairwise_lt_range 8).imp_of_mem ?_
      intro a b ha hb hab
      rw [List.mem_range] at ha hb
      rw [Ne, pixelIndex_eq_iff]
      rintro ⟨hx, -⟩
      omega
    have hfresh0 : ∀ dx ∈ List.range 8, getPixelBit data (x + dx) ycur = false := by
      intro dx hdx
      rw [List.mem_range] at hdx
      have := hfresh 0 (by simp) dx hdx
      rwa [Nat.add_zero] at this
    obtain ⟨hAc, hAu⟩ := drawBits_no_collision x ycur byte (List.range 8) data
      hfresh0 hrange
    rcases h1 : drawBits data x ycur byte (List.range 8) with ⟨d1, c1⟩
    rw [h1] at hAc hAu
    simp only at hAc hAu
    have hfresh2 : ∀ j, j < rest.length → ∀ dx, dx < 8 →
        getPixelBit d1 (x + dx) (ycur + 1 + j) = false := by
      intro j hj dx hdx
      have havoid : ∀ dx0 ∈ List.range 8,
          pixelIndex (x + dx) (ycur + 1 + j) ≠ pixelIndex (x + dx0) ycur := by
        intro dx0 _
        rw [Ne, pixelIndex_eq_iff]
        rintro ⟨-, hy⟩
        have := hdisty 0 (1 + j) (by omega) (by simp; omega)
        rw [Nat.add_zero] at this
        exact this (by rw [← hy]; congr 1; omega)
      have := hAu (x + dx) (ycur + 1 + j) havoid
      rw [this]
      have := hfresh (1 + j) (by simp; omega) dx hdx
      rwa [show ycur + (1 + j) = ycur + 1 + j from by omega] at this
    have hdisty2 : ∀ i j, i < j → j < rest.length →
        (ycur + 1 + i) % 32 ≠ (ycur + 1 + j) % 32 := by
      intro i j hij hj
      have := hdisty (1 + i) (1 + j) (by omega) (by simp; omega)
      rw [show ycur + (1 + i) = ycur + 1 + i from by omega,
        show ycur + (1 + j) = ycur + 1 + j from by omega] at this
      exact this
    obtain ⟨ihc, ihu⟩ := ih d1 (ycur + 1) hfresh2 hdisty2
    rcases h2 : drawRowsGo d1 x (ycur + 1) rest with ⟨d2, c2⟩
    rw [h2] at ihc ihu
    simp only at ihc ihu
    simp only [drawRowsGo, h1, h2]
    constructor
    · simp [hAc, ihc]
    · intro x2 y2 havoid
      have hu2 := ihu x2 y2 (fun j hj dx hdx => by
        have := havoid (1 + j) (by simp; omega) dx hdx
        rwa [show ycur + (1 + j) = ycur + 1 + j from by omega] at this)
      simp only at hu2
      simp only [hu2]
      refine hAu x2 y2 ?_
      intro dx hdx
      rw [List.mem_range] at hdx
      have := havoid 0 (by simp) dx hdx
      rwa [Nat.add_zero] at this

/-- C5: the draw collision flag is one value computed over the whole
sprite: it is 1 exactly when some XOR flip during the draw turned a
previously-set pixel off (returned `false`), a draw onto all-unset pixels
(for sprites of at most 32 rows, the decoder's maximum being 15) leaves it
0, and `interpret` of a `Draw` whose sprite fetch succeeds writes exactly
that flag into register 15. -/
theorem draw_collision_flag_whole_sprite :
    (∀ (data : Nat → Nat) (x y : Nat) (rows : List Nat),
      (drawRowsGo data x y rows).2 = true ↔
        false ∈ (drawRowsTr data x y rows).2) ∧
    (∀ (data : Nat → Nat) (x y : Nat) (rows : List Nat),
      (∀ i, data i = 0) → rows.length ≤ 32 →
      (drawRowsGo data x y rows).2 = false) ∧
    (∀ (c : Chip8) (x_reg y_reg height rnd : Nat) (r : MemoryRange)
      (sprite : List Nat),
      MemoryRange.new_len c.registers.address height = some r →
      c.memory.get_range r = .ok sprite →
      ∃ c2, c.interpret (.Draw x_reg y_reg height) rnd = .ok c2 ∧
        c2.registers.values 15 =
          (if (drawRowsGo c.vram.data (c.registers.values x_reg)
              (c.registers.values y_reg) (sprite.take height)).2 then 1 else 0) ∧
        (c2.registers.values 15 = 1 ↔
          false ∈ (drawRowsTr c.vram.data (c.registers.values x_reg)
            (c.registers.values y_reg) (sprite.take height)).2)) := by
  have key : ∀ (data : Nat → Nat) (x y : Nat) (rows : List Nat),
      (drawRowsGo data x y rows).2 = true ↔
        false ∈ (drawRowsTr data x y rows).2 := by
    intro data x y rows
    obtain ⟨-, htr⟩ := drawRows_eq_tr x rows data y
    rw [htr]
    constructor
    · intro h
      obtain ⟨b, hb, hnb⟩ := List.any_eq_true.mp h
      rw [Bool.not_eq_true'] at hnb
      subst hnb
      exact hb
    · intro h
      exact List.any_eq_true.mpr ⟨false, h, rfl⟩
  refine ⟨key, ?_, ?_⟩
  · intro data x y rows hzero hlen
    have hfresh : ∀ j, j < rows.length → ∀ dx, dx < 8 →
        getPixelBit data (x + dx) (y + j) = false := by
      intro j _ dx _
      simp [getPixelBit, hzero]
    have hdisty : ∀ i j, i < j → j < rows.length →
        (y + i) % 32 ≠ (y + j) % 32 := by
      intro i j hij hj
      omega
    exact (drawRows_no_collision x rows data y hfresh hdisty).1
  · intro c x_reg y_reg height rnd r sprite hr hsp
    simp only [Chip8.interpret, hr, hsp]
    rcases hdg : drawRowsGo c.vram.data (c.registers.values x_reg)
      (c.registers.values y_reg) (sprite.take height) with ⟨d2, col⟩
    simp only [hdg]
    refine ⟨_, rfl, ?_, ?_⟩
    · simp [setVal]
    · have hiff := key c.vram.data (c.registers.values x_reg)
        (c.registers.values y_reg) (sprite.take height)
      rw [hdg] at hiff
      simp only at hiff
      simp only [setVal]
      rw [← hiff]
      by_cases hcol : col = true
      · simp [hcol]
      · simp [Bool.not_eq_true] at hcol
        simp [hcol]

/-- C5 (witness): the interpret clause applied to a machine drawing the
two-row sprite FF 81 at (0, 0) on a cleared screen. -/
theorem draw_collision_flag_whole_sprite_witness :
    MemoryRange.new_len drawCpu.registers.address 2 = some ⟨0, 2⟩ ∧
    drawCpu.memory.get_range ⟨0, 2⟩ = .ok [0xFF, 0x81, 0x00] ∧
    (∃ c2, drawCpu.interpret (.Draw 0 1 2) 0 = .ok c2 ∧
      c2.registers.values 15 =
        (if (drawRowsGo drawCpu.vram.data (drawCpu.registers.values 0)
            (drawCpu.registers.values 1) (([0xFF, 0x81, 0x00] : List Nat).take 2)).2
         then 1 else 0) ∧
      (c2.registers.values 15 = 1 ↔
        false ∈ (drawRowsTr drawCpu.vram.data (drawCpu.registers.values 0)
          (drawCpu.registers.values 1) (([0xFF, 0x81, 0x00] : List Nat).take 2)).2)) :=
  ⟨rfl, rfl, draw_collision_flag_whole_sprite.2.2 drawCpu 0 1 2 0 ⟨0, 2⟩
    [0xFF, 0x81, 0x00] rfl rfl⟩
